import Mathlib

/-!
Verification of the morph engine of `pythonMorpher` (`src/main.py`).

The engine works on a list of `MorphPoint` correspondences (normalized
coordinates), a source raster, and a blend factor `t`.  We embed the
relevant functions (`MorphEditor.update_morph`, `MorphEditor.interpolate_image`,
`MorphEditor.save_template`, `MorphEditor.load_template`, `MorphEditor.save_gif`)
as pure Lean functions.  Reals/floats are modelled by `ℚ`; a raster is a
single channel of the 3-channel 8-bit image (the numpy operations involved act
channel-wise and identically on each channel); pixel values are `ℕ`, with the
final `astype(np.uint8)` modelled as `% 256`.

External library calls (`scipy.spatial.Delaunay`, `cv2.getAffineTransform`,
`cv2.warpAffine`, `cv2.fillConvexPoly`) are not part of the repository; they
are modelled from the spec, each with a doc comment saying so.
-/

namespace Morpher

/-- A 2D point with rational coordinates. -/
abbrev Pt := ℚ × ℚ

/-- Embedding of the `MorphPoint` dataclass of `src/main.py`: a source and a
target position, both in normalized (0-1) coordinates. -/
structure MorphPoint where
  source : Pt
  target : Pt
deriving DecidableEq

/-- A raster image (one channel): pixel value at column `x`, row `y`. -/
abbrev Raster := ℕ → ℕ → ℕ

/-- The all-zero raster, as produced by `np.zeros_like`. -/
def zeroRaster : Raster := fun _ _ => 0

/-- Floor of a rational number, computed structurally (kernel-friendly). -/
def qfloor (q : ℚ) : ℤ := q.num.fdiv q.den

/-- Rounding to the nearest integer (half up), used for pixel sampling. -/
def qround (q : ℚ) : ℤ := qfloor (q + 1/2)

/-- Truncation toward zero, as performed by `astype(np.int32)` on the
destination triangle vertices. -/
def qtrunc (q : ℚ) : ℤ := if 0 ≤ q then qfloor q else - qfloor (-q)

/-- Determinant of a 3x3 matrix given row-wise. -/
def det3x3 (a1 a2 a3 b1 b2 b3 c1 c2 c3 : ℚ) : ℚ :=
  a1 * (b2 * c3 - b3 * c2) - a2 * (b1 * c3 - b3 * c1) + a3 * (b1 * c2 - b2 * c1)

/-- A 2x3 affine matrix `[[a, b, c], [d, e, f]]` mapping
`(x, y) ↦ (a x + b y + c, d x + e y + f)`. -/
structure AffMat where
  a : ℚ
  b : ℚ
  c : ℚ
  d : ℚ
  e : ℚ
  f : ℚ
deriving DecidableEq

/-- The identity affine matrix. -/
def idAff : AffMat := ⟨1, 0, 0, 0, 1, 0⟩

/-- A triangle: three points. -/
abbrev Tri := Pt × Pt × Pt

/-- Modelled from the spec: `cv2.getAffineTransform` (external library).  It
extracts the affine map `A` with `A(src[i]) = dst[i]` for the three vertex
pairs, solving the two 3x3 linear systems by Cramer's rule; per the spec,
if the 3 source points are collinear the transform is singular and the call
fails (`Option.none`). -/
def getAffineTransform (s d : Tri) : Option AffMat :=
  let dd := det3x3 s.1.1 s.1.2 1 s.2.1.1 s.2.1.2 1 s.2.2.1 s.2.2.2 1
  if dd = 0 then none
  else some
    { a := det3x3 d.1.1 s.1.2 1 d.2.1.1 s.2.1.2 1 d.2.2.1 s.2.2.2 1 / dd
      b := det3x3 s.1.1 d.1.1 1 s.2.1.1 d.2.1.1 1 s.2.2.1 d.2.2.1 1 / dd
      c := det3x3 s.1.1 s.1.2 d.1.1 s.2.1.1 s.2.1.2 d.2.1.1 s.2.2.1 s.2.2.2 d.2.2.1 / dd
      d := det3x3 d.1.2 s.1.2 1 d.2.1.2 s.2.1.2 1 d.2.2.2 s.2.2.2 1 / dd
      e := det3x3 s.1.1 d.1.2 1 s.2.1.1 d.2.1.2 1 s.2.2.1 d.2.2.2 1 / dd
      f := det3x3 s.1.1 s.1.2 d.1.2 s.2.1.1 s.2.1.2 d.2.1.2 s.2.2.1 s.2.2.2 d.2.2.2 / dd }

/-- Sample a raster at integer coordinates, `0` outside the canvas (the
`borderValue=0` default of `cv2.warpAffine`). -/
def sample (img : Raster) (w h : ℕ) (ix iy : ℤ) : ℕ :=
  if 0 ≤ ix ∧ ix < (w : ℤ) ∧ 0 ≤ iy ∧ iy < (h : ℤ) then img ix.toNat iy.toNat else 0

/-- Modelled from the spec: `cv2.warpAffine` (external library).  Applies the
affine map `m` to the entire source raster: each destination pixel is sampled
from the source at the inverse-mapped position (nearest-neighbour rounding);
a singular linear part yields the zero image. -/
def warpAffine (m : AffMat) (img : Raster) (w h : ℕ) : Raster := fun x y =>
  let det := m.a * m.e - m.b * m.d
  if det = 0 then 0
  else
    sample img w h
      (qround ((m.e * ((x : ℚ) - m.c) - m.b * ((y : ℚ) - m.f)) / det))
      (qround ((m.a * ((y : ℚ) - m.f) - m.d * ((x : ℚ) - m.c)) / det))

/-- Twice the signed area of the triangle `a b p` with integer vertices. -/
def cross2 (a b p : ℤ × ℤ) : ℤ :=
  (b.1 - a.1) * (p.2 - a.2) - (b.2 - a.2) * (p.1 - a.1)

/-- Point-in-triangle test (boundary inclusive) over integer vertices. -/
def insideTri (v1 v2 v3 p : ℤ × ℤ) : Bool :=
  let d1 := cross2 v1 v2 p
  let d2 := cross2 v2 v3 p
  let d3 := cross2 v3 v1 p
  !((d1 < 0 || d2 < 0 || d3 < 0) && (d1 > 0 || d2 > 0 || d3 > 0))

/-- Truncate a rational point to integer coordinates (`astype(np.int32)`). -/
def truncPt (p : Pt) : ℤ × ℤ := (qtrunc p.1, qtrunc p.2)

/-- Modelled from the spec: `cv2.fillConvexPoly` on the destination triangle
(external library) — the binary mask of the triangle's interior (inclusive),
after the `astype(np.int32)` vertex truncation performed by the source. -/
def maskVal (d : Tri) (x y : ℕ) : ℕ :=
  if insideTri (truncPt d.1) (truncPt d.2.1) (truncPt d.2.2) ((x : ℤ), (y : ℤ)) then 1 else 0

/-- Look up the three vertices of a simplex (an index triple) in a layout. -/
def triOf (layout : List Pt) (s : ℕ × ℕ × ℕ) : Tri :=
  (layout.getD s.1 (0, 0), layout.getD s.2.1 (0, 0), layout.getD s.2.2 (0, 0))

/-- One iteration of the triangle loop shared by `update_morph` and
`interpolate_image`: compute the affine transform for the simplex, warp the
whole source raster by it, rasterize the destination triangle mask, and blend
`acc * (1 - mask) + warped * mask`.  A failing affine extraction (degenerate
source triangle) fails the step, feeding the surrounding `try`/`except`. -/
def composite_step (img : Raster) (w h : ℕ) (srcTri dstTri : Tri) (acc : Raster) :
    Option Raster :=
  (getAffineTransform srcTri dstTri).map fun m => fun x y =>
    acc x y * (1 - maskVal dstTri x y) + warpAffine m img w h x y * maskVal dstTri x y

/-- The triangle loop of `update_morph` / `interpolate_image`: fold
`composite_step` over the simplices, aborting on the first failure (the
Python `try` block aborts the whole loop on any exception). -/
def runTriangles (img : Raster) (w h : ℕ) (srcL dstL : List Pt) :
    List (ℕ × ℕ × ℕ) → Raster → Option Raster
  | [], acc => some acc
  | s :: rest, acc =>
    match composite_step img w h (triOf srcL s) (triOf dstL s) acc with
    | none => none
    | some acc2 => runTriangles img w h srcL dstL rest acc2

/-- Twice the signed area of the rational triangle `p q r`. -/
def crossQ (p q r : Pt) : ℚ :=
  (q.1 - p.1) * (r.2 - p.2) - (q.2 - p.2) * (r.1 - p.1)

/-- Every triple of points in the list is collinear. -/
def allCollinear (l : List Pt) : Bool :=
  l.all fun p => l.all fun q => l.all fun r => decide (crossQ p q r = 0)

/-- Modelled from the spec: `scipy.spatial.Delaunay` (external library).
It fails (raises) for fewer than 3 points or for a degenerate (all-collinear)
configuration, and otherwise returns a triangulation, modelled here as a fan
of index triples.  The theorems below depend only on this interface — failure
conditions and the index-triple shape — never on the Delaunay property
itself. -/
def delaunayModel (ptsL : List Pt) : Option (List (ℕ × ℕ × ℕ)) :=
  if ptsL.length < 3 then none
  else if allCollinear ptsL then none
  else some ((List.range (ptsL.length - 2)).map fun i => (0, i + 1, i + 2))

/-- The `source_points` array of `update_morph` / `interpolate_image`:
normalized source coordinates scaled to pixel space by the raster's width and
height. -/
def source_points (pts : List MorphPoint) (w h : ℕ) : List Pt :=
  pts.map fun p => (p.source.1 * (w : ℚ), p.source.2 * (h : ℚ))

/-- The `target_points` array of `update_morph` / `interpolate_image`. -/
def target_points (pts : List MorphPoint) (w h : ℕ) : List Pt :=
  pts.map fun p => (p.target.1 * (w : ℚ), p.target.2 * (h : ℚ))

/-- The `inter_points` array of `interpolate_image`:
`(1 - t) * source_points + t * target_points`, elementwise. -/
def inter_points (pts : List MorphPoint) (w h : ℕ) (t : ℚ) : List Pt :=
  List.zipWith
    (fun s tg => ((1 - t) * s.1 + t * tg.1, (1 - t) * s.2 + t * tg.2))
    (source_points pts w h) (target_points pts w h)

/-- Embedding of `MorphEditor.interpolate_image` (`src/main.py` lines
395-415): blend the layouts, triangulate the source layout, run the triangle
loop seeded with `np.zeros_like` (line 403), and return the `% 256` composite;
any exception in the `try` block makes it return the source canvas raster
unchanged (line 415). -/
def interpolate_image (pts : List MorphPoint) (img : Raster) (w h : ℕ) (t : ℚ) : Raster :=
  match delaunayModel (source_points pts w h) with
  | none => img
  | some simplices =>
    match runTriangles img w h (source_points pts w h) (inter_points pts w h t)
        simplices zeroRaster with
    | none => img
    | some m => fun x y => m x y % 256

/-- Embedding of `MorphEditor.update_morph` (`src/main.py` lines 317-348): it
returns without output below 3 points (line 318), otherwise triangulates the
source layout and runs the same triangle loop with destination layout
`target_points`, seeded with a copy of the source raster (line 331);
`Option.none` models "no new raster shown" (early return or caught
exception). -/
def update_morph (pts : List MorphPoint) (img : Raster) (w h : ℕ) : Option Raster :=
  if pts.length < 3 then none
  else
    match delaunayModel (source_points pts w h) with
    | none => none
    | some simplices =>
      match runTriangles img w h (source_points pts w h) (target_points pts w h)
          simplices img with
      | none => none
      | some m => some fun x y => m x y % 256

/-- The pixel of `update_morph`'s output at `(x, y)`, when an output exists. -/
def update_morph_pixel (pts : List MorphPoint) (img : Raster) (w h x y : ℕ) : Option ℕ :=
  (update_morph pts img w h).map fun m => m x y

/-- Embedding of `MorphEditor.save_template` (`src/main.py` lines 350-356):
one record per correspondence, four numeric fields
`source_x, source_y, target_x, target_y` in normalized space.  The textual
CSV encoding is performed by the external `csv` collaborator; records are
modelled as 4-tuples. -/
def save_template (pts : List MorphPoint) : List (ℚ × ℚ × ℚ × ℚ) :=
  pts.map fun p => (p.source.1, p.source.2, p.target.1, p.target.2)

/-- Embedding of `MorphEditor.load_template` (`src/main.py` lines 358-367):
clear the point list and append one `MorphPoint` per parsed record. -/
def load_template (rows : List (ℚ × ℚ × ℚ × ℚ)) : List MorphPoint :=
  rows.map fun r => { source := (r.1, r.2.1), target := (r.2.2.1, r.2.2.2) }

/-- The blend factors of `MorphEditor.save_gif` (`src/main.py` line 383):
`t = i / (num_frames - 1)` for `i` in `range(num_frames)`. -/
def save_gif_ts (numFrames : ℕ) : List ℚ :=
  (List.range numFrames).map fun (i : ℕ) => (i : ℚ) / ((numFrames : ℚ) - 1)

/-- The forward frame list of `MorphEditor.save_gif` (lines 379-385):
`interpolate_image` at each blend factor, in order. -/
def save_gif_forward (pts : List MorphPoint) (img : Raster) (w h numFrames : ℕ) :
    List Raster :=
  (save_gif_ts numFrames).map (interpolate_image pts img w h)

/-- The full frame list of `MorphEditor.save_gif` (lines 379-388): the forward
frames, followed — when `loop` is set — by the whole reversed forward list
(`images += images[::-1]`, line 388). -/
def save_gif_frames (pts : List MorphPoint) (img : Raster) (w h numFrames : ℕ)
    (loop : Bool) : List Raster :=
  if loop then
    save_gif_forward pts img w h numFrames ++ (save_gif_forward pts img w h numFrames).reverse
  else save_gif_forward pts img w h numFrames

/-- The body of the `try` block of `interpolate_image`: `none` models a raised
exception (triangulation failure or a degenerate triangle). -/
def interpolate_try (pts : List MorphPoint) (img : Raster) (w h : ℕ) (t : ℚ) :
    Option Raster :=
  match delaunayModel (source_points pts w h) with
  | none => none
  | some simplices =>
    runTriangles img w h (source_points pts w h) (inter_points pts w h t)
      simplices zeroRaster

/-- The compositor of `interpolate_image` with an arbitrary destination
layout, used to state which layout the interpolator passes to it. -/
def interpolate_with_dest (pts : List MorphPoint) (img : Raster) (w h : ℕ)
    (dstL : List Pt) : Raster :=
  match delaunayModel (source_points pts w h) with
  | none => img
  | some simplices =>
    match runTriangles img w h (source_points pts w h) dstL simplices zeroRaster with
    | none => img
    | some m => fun x y => m x y % 256

/-- Default correspondence used only as the `List.getD` fallback. -/
def mpDefault : MorphPoint := { source := (0, 0), target := (0, 0) }

/-- Concrete input: a single correspondence (triangulation impossible). -/
def pts1 : List MorphPoint :=
  [{ source := (1/4, 1/4), target := (1/2, 1/2) }]

/-- Concrete input: two correspondences (triangulation impossible). -/
def pts2 : List MorphPoint :=
  [{ source := (0, 0), target := (0, 0) },
   { source := (1/2, 1/2), target := (1/2, 1/2) }]

/-- Concrete input: three correspondences forming a small triangle near the
origin (source and target coincide); on a 4x4 raster its pixel-space corners
are (0,0), (1,0), (0,1), so pixel (3,3) is covered by no mask. -/
def pts3 : List MorphPoint :=
  [{ source := (0, 0), target := (0, 0) },
   { source := (1/4, 0), target := (1/4, 0) },
   { source := (0, 1/4), target := (0, 1/4) }]

/-- Concrete input: four correspondences whose first three source points are
collinear, so the fan triangulation contains one degenerate triangle
`(0, 1, 2)` and one valid triangle `(0, 2, 3)`; the fourth point moves from
`(1/4, 1/2)` to `(1/2, 1/2)`, so the valid triangle genuinely warps. -/
def pts4 : List MorphPoint :=
  [{ source := (0, 0), target := (0, 0) },
   { source := (1/4, 0), target := (1/4, 0) },
   { source := (1/2, 0), target := (1/2, 0) },
   { source := (1/4, 1/2), target := (1/2, 1/2) }]

/-- Concrete raster: constant value 7. -/
def img7 : Raster := fun _ _ => 7

/-- Concrete raster: constant value 255 (white). -/
def img255 : Raster := fun _ _ => 255

/-- Concrete raster: a gradient, distinguishing pixels. -/
def imgGrad : Raster := fun x y => x + 4 * y

end Morpher

namespace Morpher

/-- The computed floor agrees with Mathlib's floor on `ℚ`. -/
theorem qfloor_eq_floor (q : ℚ) : qfloor q = ⌊q⌋ := by
  rw [Rat.floor_def, qfloor, Int.fdiv_eq_ediv _ (by positivity)]

/-- Rounding a natural-number coordinate is the identity. -/
theorem qround_natCast (n : ℕ) : qround (n : ℚ) = (n : ℤ) := by
  rw [qround, qfloor_eq_floor, Int.floor_nat_add]
  norm_num

/-- A mask value is binary. -/
theorem maskVal_cases (d : Tri) (x y : ℕ) : maskVal d x y = 0 ∨ maskVal d x y = 1 := by
  unfold maskVal
  split <;> simp

/-- Warping with the identity affine matrix reproduces the raster on the
canvas. -/
theorem warpAffine_id (img : Raster) (w h x y : ℕ) (hx : x < w) (hy : y < h) :
    warpAffine idAff img w h x y = img x y := by
  have hdet : ((1:ℚ) * 1 - 0 * 0) = 1 := by norm_num
  have hxq : ((1:ℚ) * ((x : ℚ) - 0) - 0 * ((y : ℚ) - 0)) / ((1:ℚ) * 1 - 0 * 0) = (x : ℚ) := by
    norm_num
  have hyq : ((1:ℚ) * ((y : ℚ) - 0) - 0 * ((x : ℚ) - 0)) / ((1:ℚ) * 1 - 0 * 0) = (y : ℚ) := by
    norm_num
  show (let det := (1:ℚ) * 1 - 0 * 0
    if det = 0 then 0
    else
      sample img w h
        (qround (((1:ℚ) * ((x : ℚ) - 0) - 0 * ((y : ℚ) - 0)) / det))
        (qround (((1:ℚ) * ((y : ℚ) - 0) - 0 * ((x : ℚ) - 0)) / det))) = img x y
  rw [show (let det := (1:ℚ) * 1 - 0 * 0
    if det = 0 then 0
    else
      sample img w h
        (qround (((1:ℚ) * ((x : ℚ) - 0) - 0 * ((y : ℚ) - 0)) / det))
        (qround (((1:ℚ) * ((y : ℚ) - 0) - 0 * ((x : ℚ) - 0)) / det))) =
    if ((1:ℚ) * 1 - 0 * 0) = 0 then 0
    else
      sample img w h
        (qround (((1:ℚ) * ((x : ℚ) - 0) - 0 * ((y : ℚ) - 0)) / ((1:ℚ) * 1 - 0 * 0)))
        (qround (((1:ℚ) * ((y : ℚ) - 0) - 0 * ((x : ℚ) - 0)) / ((1:ℚ) * 1 - 0 * 0))) from rfl]
  rw [if_neg (by norm_num), hxq, hyq, qround_natCast, qround_natCast, sample,
    if_pos ⟨Int.ofNat_nonneg x, by exact_mod_cast hx, Int.ofNat_nonneg y, by exact_mod_cast hy⟩]
  rw [Int.toNat_natCast, Int.toNat_natCast]

/-- Determinant vanishes when columns 1 and 2 coincide. -/
theorem det3x3_eq12 (p q r : ℚ) : det3x3 p p 1 q q 1 r r 1 = 0 := by
  unfold det3x3
  ring

/-- Determinant vanishes when columns 1 and 3 coincide. -/
theorem det3x3_eq13 (p q r s u v : ℚ) : det3x3 p q p r s r u v u = 0 := by
  unfold det3x3
  ring

/-- Determinant vanishes when columns 2 and 3 coincide. -/
theorem det3x3_eq23 (p q r s u v : ℚ) : det3x3 p q q r s s u v v = 0 := by
  unfold det3x3
  ring

/-- When source and destination triangles coincide and the configuration is
nonsingular, the extracted affine transform is the identity. -/
theorem getAffineTransform_self (tr : Tri)
    (hdd : det3x3 tr.1.1 tr.1.2 1 tr.2.1.1 tr.2.1.2 1 tr.2.2.1 tr.2.2.2 1 ≠ 0) :
    getAffineTransform tr tr = some idAff := by
  simp only [getAffineTransform]
  rw [if_neg hdd]
  refine congrArg some ?_
  show AffMat.mk _ _ _ _ _ _ = AffMat.mk 1 0 0 0 1 0
  simp only [AffMat.mk.injEq]
  refine ⟨div_self hdd, ?_, ?_, ?_, div_self hdd, ?_⟩
  · rw [det3x3_eq12, zero_div]
  · rw [det3x3_eq13, zero_div]
  · rw [det3x3_eq12, zero_div]
  · rw [det3x3_eq23, zero_div]

/-- A successful self-transform extraction can only return the identity. -/
theorem getAffineTransform_self_eq (tr : Tri) (m : AffMat)
    (hm : getAffineTransform tr tr = some m) : m = idAff := by
  by_cases hdd : det3x3 tr.1.1 tr.1.2 1 tr.2.1.1 tr.2.1.2 1 tr.2.2.1 tr.2.2.2 1 = 0
  · rw [getAffineTransform, if_pos hdd] at hm
    exact absurd hm (by simp)
  · rw [getAffineTransform_self tr hdd] at hm
    exact (Option.some.injEq _ _).mp hm.symm

/-- A step whose source and destination triangles coincide paints the pixel
with the unwarped source value wherever its mask is set, and keeps the
accumulator elsewhere. -/
theorem composite_step_self (img : Raster) (w h : ℕ) (tr : Tri) (acc acc2 : Raster)
    (hstep : composite_step img w h tr tr acc = some acc2) (x y : ℕ)
    (hx : x < w) (hy : y < h) :
    acc2 x y = acc x y * (1 - maskVal tr x y) + img x y * maskVal tr x y := by
  obtain ⟨mm, hga, hF⟩ := Option.map_eq_some'.mp hstep
  rw [getAffineTransform_self_eq tr mm hga] at hF
  rw [← hF]
  simp only [warpAffine_id img w h x y hx hy]

/-- Any step leaves a pixel outside its mask unchanged. -/
theorem composite_step_unmasked (img : Raster) (w h : ℕ) (srcTri dstTri : Tri)
    (acc acc2 : Raster) (hstep : composite_step img w h srcTri dstTri acc = some acc2)
    (x y : ℕ) (hun : maskVal dstTri x y = 0) : acc2 x y = acc x y := by
  obtain ⟨mm, _, hF⟩ := Option.map_eq_some'.mp hstep
  rw [← hF]
  simp only [hun]
  simp

/-- A failing step (degenerate source triangle) aborts the whole triangle
loop: the Python `try` wraps the entire `for` loop. -/
theorem runTriangles_fail (img : Raster) (w h : ℕ) (srcL dstL : List Pt)
    (L : List (ℕ × ℕ × ℕ)) (acc : Raster)
    (hfail : ∃ s ∈ L, getAffineTransform (triOf srcL s) (triOf dstL s) = none) :
    runTriangles img w h srcL dstL L acc = none := by
  induction L generalizing acc with
  | nil =>
    obtain ⟨s0, hs0, _⟩ := hfail
    exact absurd hs0 (List.not_mem_nil s0)
  | cons s rest ih =>
    obtain ⟨s0, hs0, hga⟩ := hfail
    rcases List.mem_cons.mp hs0 with h0 | h0
    · subst h0
      rw [runTriangles]
      have hnone : composite_step img w h (triOf srcL s0) (triOf dstL s0) acc = none := by
        rw [composite_step, hga]
        rfl
      rw [hnone]
    · rw [runTriangles]
      cases hstep : composite_step img w h (triOf srcL s) (triOf dstL s) acc with
      | none => rfl
      | some acc2 => exact ih acc2 ⟨s0, h0, hga⟩

/-- A pixel covered by no destination-triangle mask keeps the seed value
through the whole triangle loop. -/
theorem runTriangles_uncovered (img : Raster) (w h : ℕ) (srcL dstL : List Pt)
    (L : List (ℕ × ℕ × ℕ)) (acc m : Raster) (x y : ℕ)
    (hrun : runTriangles img w h srcL dstL L acc = some m)
    (hun : ∀ s ∈ L, maskVal (triOf dstL s) x y = 0) :
    m x y = acc x y := by
  induction L generalizing acc with
  | nil =>
    rw [runTriangles] at hrun
    rw [← (Option.some.injEq _ _).mp hrun]
  | cons s rest ih =>
    rw [runTriangles] at hrun
    cases hstep : composite_step img w h (triOf srcL s) (triOf dstL s) acc with
    | none =>
      rw [hstep] at hrun
      exact absurd hrun (by simp)
    | some acc2 =>
      rw [hstep] at hrun
      rw [ih acc2 hrun (fun s2 hs2 => hun s2 (List.mem_cons_of_mem s hs2))]
      exact composite_step_unmasked img w h _ _ acc acc2 hstep x y
        (hun s (List.mem_cons_self s rest))


/-- Success of the triangle loop does not depend on the seed buffer: only the
affine extractions can fail. -/
theorem runTriangles_some_of_some (img : Raster) (w h : ℕ) (srcL dstL : List Pt)
    (L : List (ℕ × ℕ × ℕ)) (acc1 acc2 m1 : Raster)
    (hrun : runTriangles img w h srcL dstL L acc1 = some m1) :
    ∃ m2, runTriangles img w h srcL dstL L acc2 = some m2 := by
  induction L generalizing acc1 acc2 with
  | nil => exact ⟨acc2, rfl⟩
  | cons s rest ih =>
    rw [runTriangles] at hrun
    cases hstep : composite_step img w h (triOf srcL s) (triOf dstL s) acc1 with
    | none =>
      rw [hstep] at hrun
      exact absurd hrun (by simp)
    | some b1 =>
      rw [hstep] at hrun
      obtain ⟨mm, hga, _⟩ := Option.map_eq_some'.mp hstep
      rw [runTriangles]
      have hstep2 : composite_step img w h (triOf srcL s) (triOf dstL s) acc2 =
          some fun x y =>
            acc2 x y * (1 - maskVal (triOf dstL s) x y) +
              warpAffine mm img w h x y * maskVal (triOf dstL s) x y := by
        rw [composite_step, hga]
        rfl
      rw [hstep2]
      exact ih _ _ hrun

/-- If two seed buffers agree at a pixel, the two loop results agree there. -/
theorem runTriangles_agree_pixel (img : Raster) (w h : ℕ) (srcL dstL : List Pt)
    (L : List (ℕ × ℕ × ℕ)) (acc1 acc2 m1 m2 : Raster) (x y : ℕ)
    (hrun1 : runTriangles img w h srcL dstL L acc1 = some m1)
    (hrun2 : runTriangles img w h srcL dstL L acc2 = some m2)
    (hagree : acc1 x y = acc2 x y) : m1 x y = m2 x y := by
  induction L generalizing acc1 acc2 with
  | nil =>
    rw [runTriangles] at hrun1 hrun2
    rw [← (Option.some.injEq _ _).mp hrun1, ← (Option.some.injEq _ _).mp hrun2, hagree]
  | cons s rest ih =>
    rw [runTriangles] at hrun1 hrun2
    cases hstep1 : composite_step img w h (triOf srcL s) (triOf dstL s) acc1 with
    | none =>
      rw [hstep1] at hrun1
      exact absurd hrun1 (by simp)
    | some b1 =>
      rw [hstep1] at hrun1
      cases hstep2 : composite_step img w h (triOf srcL s) (triOf dstL s) acc2 with
      | none =>
        rw [hstep2] at hrun2
        exact absurd hrun2 (by simp)
      | some b2 =>
        rw [hstep2] at hrun2
        obtain ⟨mm1, hga1, hF1⟩ := Option.map_eq_some'.mp hstep1
        obtain ⟨mm2, hga2, hF2⟩ := Option.map_eq_some'.mp hstep2
        have hmm : mm1 = mm2 := by
          rw [hga1] at hga2
          exact (Option.some.injEq _ _).mp hga2
        have hb : b1 x y = b2 x y := by
          rw [← hF1, ← hF2, hmm]
          simp only [hagree]
        exact ih _ _ hrun1 hrun2 hb

/-- A pixel covered by some destination-triangle mask gets the same final
value regardless of the seed buffer (the last covering triangle paints it). -/
theorem runTriangles_covered_agree (img : Raster) (w h : ℕ) (srcL dstL : List Pt)
    (L : List (ℕ × ℕ × ℕ)) (acc1 acc2 m1 m2 : Raster) (x y : ℕ)
    (hrun1 : runTriangles img w h srcL dstL L acc1 = some m1)
    (hrun2 : runTriangles img w h srcL dstL L acc2 = some m2)
    (hcov : ∃ s ∈ L, maskVal (triOf dstL s) x y = 1) : m1 x y = m2 x y := by
  induction L generalizing acc1 acc2 with
  | nil =>
    obtain ⟨s0, hs0, _⟩ := hcov
    exact absurd hs0 (List.not_mem_nil s0)
  | cons s rest ih =>
    rw [runTriangles] at hrun1 hrun2
    cases hstep1 : composite_step img w h (triOf srcL s) (triOf dstL s) acc1 with
    | none =>
      rw [hstep1] at hrun1
      exact absurd hrun1 (by simp)
    | some b1 =>
      rw [hstep1] at hrun1
      cases hstep2 : composite_step img w h (triOf srcL s) (triOf dstL s) acc2 with
      | none =>
        rw [hstep2] at hrun2
        exact absurd hrun2 (by simp)
      | some b2 =>
        rw [hstep2] at hrun2
        obtain ⟨s0, hs0, hmask⟩ := hcov
        rcases List.mem_cons.mp hs0 with h0 | h0
        · subst h0
          obtain ⟨mm1, hga1, hF1⟩ := Option.map_eq_some'.mp hstep1
          obtain ⟨mm2, hga2, hF2⟩ := Option.map_eq_some'.mp hstep2
          have hmm : mm1 = mm2 := by
            rw [hga1] at hga2
            exact (Option.some.injEq _ _).mp hga2
          have hb : b1 x y = b2 x y := by
            rw [← hF1, ← hF2, hmm]
            simp only [hmask]
            simp
          exact runTriangles_agree_pixel img w h srcL dstL rest _ _ m1 m2 x y hrun1 hrun2 hb
        · exact ih _ _ hrun1 hrun2 ⟨s0, h0, hmask⟩

/-- In a loop whose destination layout equals its source layout (the `t = 0`
situation), a pixel holding the source value keeps it. -/
theorem runTriangles_self_keep (img : Raster) (w h : ℕ) (srcL : List Pt)
    (L : List (ℕ × ℕ × ℕ)) (acc m : Raster) (x y : ℕ)
    (hrun : runTriangles img w h srcL srcL L acc = some m)
    (hacc : acc x y = img x y) (hx : x < w) (hy : y < h) : m x y = img x y := by
  induction L generalizing acc with
  | nil =>
    rw [runTriangles] at hrun
    rw [← (Option.some.injEq _ _).mp hrun, hacc]
  | cons s rest ih =>
    rw [runTriangles] at hrun
    cases hstep : composite_step img w h (triOf srcL s) (triOf srcL s) acc with
    | none =>
      rw [hstep] at hrun
      exact absurd hrun (by simp)
    | some acc2 =>
      rw [hstep] at hrun
      refine ih acc2 hrun ?_
      rw [composite_step_self img w h _ acc acc2 hstep x y hx hy]
      rcases maskVal_cases (triOf srcL s) x y with hmv | hmv <;> rw [hmv] <;> simp [hacc]

/-- In a loop whose destination layout equals its source layout, a pixel
covered by some mask ends with the unwarped source value. -/
theorem runTriangles_self_covered (img : Raster) (w h : ℕ) (srcL : List Pt)
    (L : List (ℕ × ℕ × ℕ)) (acc m : Raster) (x y : ℕ)
    (hrun : runTriangles img w h srcL srcL L acc = some m)
    (hcov : ∃ s ∈ L, maskVal (triOf srcL s) x y = 1)
    (hx : x < w) (hy : y < h) : m x y = img x y := by
  induction L generalizing acc with
  | nil =>
    obtain ⟨s0, hs0, _⟩ := hcov
    exact absurd hs0 (List.not_mem_nil s0)
  | cons s rest ih =>
    rw [runTriangles] at hrun
    cases hstep : composite_step img w h (triOf srcL s) (triOf srcL s) acc with
    | none =>
      rw [hstep] at hrun
      exact absurd hrun (by simp)
    | some acc2 =>
      rw [hstep] at hrun
      obtain ⟨s0, hs0, hmask⟩ := hcov
      rcases List.mem_cons.mp hs0 with h0 | h0
      · subst h0
        refine runTriangles_self_keep img w h srcL rest acc2 m x y hrun ?_ hx hy
        rw [composite_step_self img w h _ acc acc2 hstep x y hx hy, hmask]
        simp
      · exact ih acc2 hrun ⟨s0, h0, hmask⟩

/-- At `t = 0` the blended layout is exactly the source layout. -/
theorem inter_points_zero (pts : List MorphPoint) (w h : ℕ) :
    inter_points pts w h 0 = source_points pts w h := by
  induction pts with
  | nil => rfl
  | cons p ps ih =>
    simp only [inter_points, source_points, target_points, List.map_cons,
      List.zipWith_cons_cons] at ih ⊢
    rw [ih]
    norm_num

/-- At `t = 1` the blended layout is exactly the target layout. -/
theorem inter_points_one (pts : List MorphPoint) (w h : ℕ) :
    inter_points pts w h 1 = target_points pts w h := by
  induction pts with
  | nil => rfl
  | cons p ps ih =>
    simp only [inter_points, source_points, target_points, List.map_cons,
      List.zipWith_cons_cons] at ih ⊢
    rw [ih]
    norm_num

/-- The pixel-space layouts have as many entries as the correspondence list. -/
theorem source_points_length (pts : List MorphPoint) (w h : ℕ) :
    (source_points pts w h).length = pts.length := by
  simp [source_points]

end Morpher

namespace Morpher

/-- The triangulation model fails below 3 points (insufficient points). -/
theorem delaunayModel_short (l : List Pt) (hl : l.length < 3) :
    delaunayModel l = none := by
  rw [delaunayModel, if_pos hl]

/-- A successful triangulation implies at least 3 points. -/
theorem delaunayModel_some_length (l : List Pt) (L : List (ℕ × ℕ × ℕ))
    (hL : delaunayModel l = some L) : ¬ l.length < 3 := by
  intro hl
  rw [delaunayModel_short l hl] at hL
  exact absurd hL (by simp)

/-- A failed `try` body makes `interpolate_image` return the source raster. -/
theorem interpolate_image_of_try_none (pts : List MorphPoint) (img : Raster)
    (w h : ℕ) (t : ℚ) (ht : interpolate_try pts img w h t = none) :
    interpolate_image pts img w h t = img := by
  unfold interpolate_try at ht
  unfold interpolate_image
  cases hd : delaunayModel (source_points pts w h) with
  | none => rfl
  | some L =>
    simp only [hd] at ht ⊢
    rw [ht]

/-- A successful `try` body makes `interpolate_image` return the clamped
composite. -/
theorem interpolate_image_of_try_some (pts : List MorphPoint) (img : Raster)
    (w h : ℕ) (t : ℚ) (m : Raster) (ht : interpolate_try pts img w h t = some m) :
    interpolate_image pts img w h t = fun x y => m x y % 256 := by
  unfold interpolate_try at ht
  unfold interpolate_image
  cases hd : delaunayModel (source_points pts w h) with
  | none =>
    simp only [hd] at ht
    exact absurd ht (by simp)
  | some L =>
    simp only [hd] at ht ⊢
    rw [ht]

/-- Decomposition of a successful `update_morph`. -/
theorem update_morph_cases (pts : List MorphPoint) (img : Raster) (w h : ℕ)
    (hs : (update_morph pts img w h).isSome = true) :
    ∃ L m, delaunayModel (source_points pts w h) = some L ∧
      runTriangles img w h (source_points pts w h) (target_points pts w h) L img = some m ∧
      update_morph pts img w h = some fun x y => m x y % 256 := by
  unfold update_morph at hs ⊢
  by_cases hlen : pts.length < 3
  · rw [if_pos hlen] at hs
    exact absurd hs (by simp)
  · rw [if_neg hlen] at hs ⊢
    cases hd : delaunayModel (source_points pts w h) with
    | none =>
      simp only [hd] at hs
      exact absurd hs (by simp)
    | some L =>
      simp only [hd] at hs ⊢
      cases hrun : runTriangles img w h (source_points pts w h) (target_points pts w h)
          L img with
      | none =>
        simp only [hrun] at hs
        exact absurd hs (by simp)
      | some m =>
        simp only [hrun]
        exact ⟨L, m, rfl, hrun, rfl⟩

/-- The forward frame list has one frame per requested blend factor. -/
theorem save_gif_forward_length (pts : List MorphPoint) (img : Raster)
    (w h n : ℕ) : (save_gif_forward pts img w h n).length = n := by
  rw [save_gif_forward, save_gif_ts, List.length_map, List.length_map, List.length_range]

/-- C4: for every frameCount `n ≥ 2` with `loop = false`, `save_gif` produces
exactly `n` frames, frame `i` being the interpolation at `t = i / (n - 1)`;
in particular `n = 5` uses blend factors 0, 1/4, 1/2, 3/4, 1 in order. -/
theorem C4_sequence_no_loop :
    ∀ (pts : List MorphPoint) (img : Raster) (w h n : ℕ), 2 ≤ n →
      (save_gif_frames pts img w h n false).length = n ∧
      (∀ i, i < n → (save_gif_frames pts img w h n false).getD i zeroRaster =
        interpolate_image pts img w h ((i : ℚ) / ((n : ℚ) - 1))) ∧
      save_gif_ts 5 = [0, 1/4, 1/2, 3/4, 1] := by
  intro pts img w h n _
  refine ⟨?_, ?_, ?_⟩
  · simp [save_gif_frames, save_gif_forward_length]
  · intro i hi
    have hfr : save_gif_frames pts img w h n false = save_gif_forward pts img w h n := by
      simp [save_gif_frames]
    rw [hfr, save_gif_forward, save_gif_ts, List.map_map, List.getD_eq_getElem?_getD,
      List.getElem?_map, List.getElem?_range hi]
    rfl
  · with_unfolding_all decide

/-- C4 witness: the theorem applied at a concrete input. -/
theorem C4_sequence_no_loop_witness :
    (save_gif_frames [] zeroRaster 1 1 5 false).length = 5 ∧
    (save_gif_frames [] zeroRaster 1 1 5 false).getD 2 zeroRaster =
      interpolate_image [] zeroRaster 1 1 ((2 : ℚ) / ((5 : ℚ) - 1)) ∧
    save_gif_ts 5 = [0, 1/4, 1/2, 3/4, 1] := by
  obtain ⟨h1, h2, h3⟩ := C4_sequence_no_loop [] zeroRaster 1 1 5 (by norm_num)
  exact ⟨h1, h2 2 (by norm_num), h3⟩

/-- C5: for every frameCount `n ≥ 2` with `loop = true`, the sequence is the
`n` forward frames followed by the whole reversed forward list — `2 n` frames
with the final forward frame duplicated at the turning point. -/
theorem C5_sequence_loop :
    ∀ (pts : List MorphPoint) (img : Raster) (w h n : ℕ), 2 ≤ n →
      (save_gif_frames pts img w h n true).length = 2 * n ∧
      save_gif_frames pts img w h n true =
        save_gif_forward pts img w h n ++ (save_gif_forward pts img w h n).reverse ∧
      (save_gif_frames pts img w h n true).getD (n - 1) zeroRaster =
        (save_gif_frames pts img w h n true).getD n zeroRaster := by
  intro pts img w h n hn
  have hlen := save_gif_forward_length pts img w h n
  have hfr : save_gif_frames pts img w h n true =
      save_gif_forward pts img w h n ++ (save_gif_forward pts img w h n).reverse := by
    simp [save_gif_frames]
  refine ⟨?_, hfr, ?_⟩
  · rw [hfr]
    simp [hlen]
    omega
  · rw [hfr, List.getD_eq_getElem?_getD, List.getD_eq_getElem?_getD]
    have h1 : n - 1 < (save_gif_forward pts img w h n).length := by omega
    have h2 : (save_gif_forward pts img w h n).length ≤ n := by omega
    rw [List.getElem?_append_left h1, List.getElem?_append_right h2, hlen,
      Nat.sub_self, List.getElem?_reverse (by omega), hlen, Nat.sub_zero]

/-- C5 witness: the theorem applied at a concrete input (`n = 4` gives 8
frames). -/
theorem C5_sequence_loop_witness :
    (save_gif_frames [] zeroRaster 1 1 4 true).length = 2 * 4 ∧
    save_gif_frames [] zeroRaster 1 1 4 true =
      save_gif_forward [] zeroRaster 1 1 4 ++ (save_gif_forward [] zeroRaster 1 1 4).reverse ∧
    (save_gif_frames [] zeroRaster 1 1 4 true).getD 3 zeroRaster =
      (save_gif_frames [] zeroRaster 1 1 4 true).getD 4 zeroRaster :=
  C5_sequence_loop [] zeroRaster 1 1 4 (by norm_num)

/-- C8: writing a correspondence set to the persisted record format and
reading it back reproduces the same ordered list exactly (the numeric fields
are exact in the model; the textual encoding belongs to the external `csv`
collaborator). -/
theorem C8_template_round_trip :
    ∀ pts : List MorphPoint,
      load_template (save_template pts) = pts ∧
      (save_template pts).length = pts.length := by
  intro pts
  constructor
  · induction pts with
    | nil => rfl
    | cons p ps ih =>
      simp only [save_template, load_template, List.map_cons, List.map_map] at ih ⊢
      rw [ih]
  · simp [save_template]


/-- C9 (amended): below 3 points `update_morph` returns early with no output
and no triangulation; `interpolate_image`, however, has no point-count guard —
it invokes the triangulation, which fails, and the caught failure makes it
return the unwarped source raster as its output. -/
theorem C9_insufficient_points :
    ∀ (pts : List MorphPoint) (img : Raster) (w h : ℕ) (t : ℚ), pts.length < 3 →
      update_morph pts img w h = none ∧
      delaunayModel (source_points pts w h) = none ∧
      interpolate_image pts img w h t = img := by
  intro pts img w h t hlen
  have hd : delaunayModel (source_points pts w h) = none := by
    refine delaunayModel_short _ ?_
    rw [source_points_length]
    exact hlen
  refine ⟨?_, hd, ?_⟩
  · rw [update_morph, if_pos hlen]
  · refine interpolate_image_of_try_none pts img w h t ?_
    rw [interpolate_try]
    simp only [hd]

/-- C9 witness: the amended theorem at a concrete 2-point input. -/
theorem C9_insufficient_points_witness :
    update_morph pts2 img7 4 4 = none ∧
    delaunayModel (source_points pts2 4 4) = none ∧
    interpolate_image pts2 img7 4 4 (1/3) = img7 :=
  C9_insufficient_points pts2 img7 4 4 (1/3) (by with_unfolding_all decide)

/-- C9 counterexample: with only 2 points, the claim "no triangulation is
attempted and no output is produced" fails for `interpolate_image`: the
triangulation model is invoked (and fails), and the function produces an
output raster — the unwarped source. -/
theorem C9_insufficient_points_cex :
    delaunayModel (source_points pts2 4 4) = none ∧
    interpolate_image pts2 img7 4 4 (1/2) = img7 := by
  constructor
  · with_unfolding_all decide
  · with_unfolding_all rfl

/-- C10: whenever the `try` body of `interpolate_image` fails — triangulation
failure or any degenerate triangle aborting the loop — the function returns
the source canvas raster unchanged, not a partial or empty frame. -/
theorem C10_fallback_on_failure :
    ∀ (pts : List MorphPoint) (img : Raster) (w h : ℕ) (t : ℚ),
      interpolate_try pts img w h t = none →
      interpolate_image pts img w h t = img := by
  intro pts img w h t ht
  exact interpolate_image_of_try_none pts img w h t ht

/-- C10 witness: a concrete failing input (one point: triangulation fails). -/
theorem C10_fallback_on_failure_witness :
    interpolate_image pts1 img7 4 4 (1/3) = img7 :=
  C10_fallback_on_failure pts1 img7 4 4 (1/3) (by with_unfolding_all rfl)


/-- C1 (amended): the live-preview compositor `update_morph` seeds its output
buffer with a copy of the source raster, so a pixel covered by no destination
triangle mask keeps the unwarped source value; `interpolate_image`, however,
seeds its buffer with `np.zeros_like` (`src/main.py` line 403), so such a
pixel ends at 0, not at the source value. -/
theorem C1_composite_seeding :
    (∀ (pts : List MorphPoint) (img : Raster) (w h x y : ℕ) (L : List (ℕ × ℕ × ℕ)),
      (update_morph pts img w h).isSome = true →
      delaunayModel (source_points pts w h) = some L →
      (∀ s ∈ L, maskVal (triOf (target_points pts w h) s) x y = 0) →
      img x y < 256 →
      update_morph_pixel pts img w h x y = some (img x y)) ∧
    (∀ (pts : List MorphPoint) (img : Raster) (w h : ℕ) (t : ℚ) (x y : ℕ)
      (L : List (ℕ × ℕ × ℕ)),
      (interpolate_try pts img w h t).isSome = true →
      delaunayModel (source_points pts w h) = some L →
      (∀ s ∈ L, maskVal (triOf (inter_points pts w h t) s) x y = 0) →
      interpolate_image pts img w h t x y = 0) := by
  constructor
  · intro pts img w h x y L hs hd hun himg
    obtain ⟨L2, m, hd2, hrun, hupd⟩ := update_morph_cases pts img w h hs
    rw [hd] at hd2
    have hL : L = L2 := (Option.some.injEq _ _).mp hd2
    subst hL
    rw [update_morph_pixel, hupd]
    show some (m x y % 256) = some (img x y)
    rw [runTriangles_uncovered img w h _ _ L img m x y hrun hun, Nat.mod_eq_of_lt himg]
  · intro pts img w h t x y L hs hd hun
    rw [interpolate_try] at hs
    simp only [hd] at hs
    cases hrun : runTriangles img w h (source_points pts w h) (inter_points pts w h t)
        L zeroRaster with
    | none =>
      rw [hrun] at hs
      exact absurd hs (by simp)
    | some m =>
      have ht : interpolate_try pts img w h t = some m := by
        rw [interpolate_try]
        simp only [hd]
        exact hrun
      rw [interpolate_image_of_try_some pts img w h t m ht]
      show m x y % 256 = 0
      rw [runTriangles_uncovered img w h _ _ L zeroRaster m x y hrun hun]
      rfl

/-- C1 witness: at the concrete 3-point input, pixel (3,3) is uncovered;
`update_morph` leaves it at the source value 7 while `interpolate_image`
leaves it at 0. -/
theorem C1_composite_seeding_witness :
    update_morph_pixel pts3 img7 4 4 3 3 = some (img7 3 3) ∧
    interpolate_image pts3 img7 4 4 (1/2) 3 3 = 0 :=
  ⟨C1_composite_seeding.1 pts3 img7 4 4 3 3 [(0, 1, 2)]
      (by with_unfolding_all decide) (by with_unfolding_all decide)
      (by with_unfolding_all decide) (by with_unfolding_all decide),
   C1_composite_seeding.2 pts3 img7 4 4 (1/2) 3 3 [(0, 1, 2)]
      (by with_unfolding_all decide) (by with_unfolding_all decide)
      (by with_unfolding_all decide)⟩

/-- C1 counterexample: at the concrete input the triangulation is the single
triangle `(0,1,2)`, pixel (3,3) is covered by no destination mask, yet
`interpolate_image` yields 0 there while the source pixel is 7 — refuting
"the composite output buffer is seeded with a copy of the source raster ...
so every pixel not covered by any destination triangle mask equals the
corresponding unwarped source pixel" for `interpolate_image`. -/
theorem C1_composite_seeding_cex :
    delaunayModel (source_points pts3 4 4) = some [(0, 1, 2)] ∧
    maskVal (triOf (inter_points pts3 4 4 (1/2)) (0, 1, 2)) 3 3 = 0 ∧
    interpolate_image pts3 img7 4 4 (1/2) 3 3 = 0 ∧
    img7 3 3 = 7 := by
  refine ⟨?_, ?_, ?_, ?_⟩ <;> with_unfolding_all decide

/-- C2 (amended): at `t = 0` every triangle's affine map is the identity, so
`interpolate_image` reproduces the source raster exactly at every pixel
covered by some destination triangle mask; but a pixel covered by no mask is
0 (zero seeding), not the source value. -/
theorem C2_identity_at_zero :
    ∀ (pts : List MorphPoint) (img : Raster) (w h x y : ℕ) (L : List (ℕ × ℕ × ℕ)),
      (interpolate_try pts img w h 0).isSome = true →
      delaunayModel (source_points pts w h) = some L →
      x < w → y < h → img x y < 256 →
      ((∃ s ∈ L, maskVal (triOf (source_points pts w h) s) x y = 1) →
        interpolate_image pts img w h 0 x y = img x y) ∧
      ((∀ s ∈ L, maskVal (triOf (source_points pts w h) s) x y = 0) →
        interpolate_image pts img w h 0 x y = 0) := by
  intro pts img w h x y L hs hd hx hy himg
  rw [interpolate_try] at hs
  simp only [hd] at hs
  cases hrun : runTriangles img w h (source_points pts w h) (inter_points pts w h 0)
      L zeroRaster with
  | none =>
    rw [hrun] at hs
    exact absurd hs (by simp)
  | some m =>
    have ht : interpolate_try pts img w h 0 = some m := by
      rw [interpolate_try]
      simp only [hd]
      exact hrun
    have hrun2 : runTriangles img w h (source_points pts w h) (source_points pts w h)
        L zeroRaster = some m := by
      nth_rewrite 2 [← inter_points_zero pts w h]
      exact hrun
    constructor
    · intro hcov
      rw [interpolate_image_of_try_some pts img w h 0 m ht]
      have hm : m x y = img x y :=
        runTriangles_self_covered img w h (source_points pts w h) L zeroRaster m x y
          hrun2 hcov hx hy
      show m x y % 256 = img x y
      rw [hm, Nat.mod_eq_of_lt himg]
    · intro hun
      rw [interpolate_image_of_try_some pts img w h 0 m ht]
      have hm : m x y = zeroRaster x y :=
        runTriangles_uncovered img w h _ _ L zeroRaster m x y hrun2 hun
      show m x y % 256 = 0
      rw [hm]
      rfl

/-- C2 witness: at the concrete input, covered pixel (0,0) reproduces the
source value and uncovered pixel (3,3) is 0 at `t = 0`. -/
theorem C2_identity_at_zero_witness :
    interpolate_image pts3 img7 4 4 0 0 0 = img7 0 0 ∧
    interpolate_image pts3 img7 4 4 0 3 3 = 0 :=
  ⟨(C2_identity_at_zero pts3 img7 4 4 0 0 [(0, 1, 2)]
      (by with_unfolding_all decide) (by with_unfolding_all decide)
      (by with_unfolding_all decide) (by with_unfolding_all decide)
      (by with_unfolding_all decide)).1 (by with_unfolding_all decide),
   (C2_identity_at_zero pts3 img7 4 4 3 3 [(0, 1, 2)]
      (by with_unfolding_all decide) (by with_unfolding_all decide)
      (by with_unfolding_all decide) (by with_unfolding_all decide)
      (by with_unfolding_all decide)).2 (by with_unfolding_all decide)⟩

/-- C2 counterexample: at `t = 0` on a white raster, the uncovered pixel
(3,3) comes out 0 instead of 255 — a full-range difference, not a small
rasterization tolerance — refuting "interpolating at t = 0 reproduces the
source raster, pixel-wise, up to a small tolerance". -/
theorem C2_identity_at_zero_cex :
    interpolate_image pts3 img255 4 4 0 3 3 = 0 ∧ img255 3 3 = 255 := by
  constructor <;> with_unfolding_all decide

/-- C3 (amended): a degenerate triangle does not cause a local skip — the
`try` block wraps the whole triangle loop, so the failure aborts the entire
composite and `interpolate_image` returns the unwarped source raster; no
triangle, valid or not, is composited. -/
theorem C3_degenerate_aborts :
    ∀ (pts : List MorphPoint) (img : Raster) (w h : ℕ) (t : ℚ)
      (L : List (ℕ × ℕ × ℕ)),
      delaunayModel (source_points pts w h) = some L →
      (∃ s ∈ L, getAffineTransform (triOf (source_points pts w h) s)
        (triOf (inter_points pts w h t) s) = none) →
      interpolate_image pts img w h t = img := by
  intro pts img w h t L hd hfail
  refine interpolate_image_of_try_none pts img w h t ?_
  rw [interpolate_try]
  simp only [hd]
  exact runTriangles_fail img w h _ _ L zeroRaster hfail

/-- C3 witness: the concrete 4-point input has a degenerate triangle
`(0,1,2)` in its triangulation, and the whole composite falls back to the
source raster. -/
theorem C3_degenerate_aborts_witness :
    interpolate_image pts4 imgGrad 4 4 1 = imgGrad :=
  C3_degenerate_aborts pts4 imgGrad 4 4 1 [(0, 1, 2), (0, 2, 3)]
    (by with_unfolding_all decide) (by with_unfolding_all decide)

/-- C3 counterexample: in a triangulation with a degenerate triangle
`(0,1,2)` and a valid triangle `(0,2,3)`, pixel (2,2) lies in the valid
triangle's destination footprint; compositing that triangle alone would paint
it 9, yet the actual output leaves it at the source value 10 — refuting
"every other triangle is still warped and composited". -/
theorem C3_degenerate_aborts_cex :
    getAffineTransform (triOf (source_points pts4 4 4) (0, 1, 2))
      (triOf (inter_points pts4 4 4 1) (0, 1, 2)) = none ∧
    maskVal (triOf (inter_points pts4 4 4 1) (0, 2, 3)) 2 2 = 1 ∧
    interpolate_image pts4 imgGrad 4 4 1 2 2 = imgGrad 2 2 ∧
    (composite_step imgGrad 4 4 (triOf (source_points pts4 4 4) (0, 2, 3))
      (triOf (inter_points pts4 4 4 1) (0, 2, 3)) zeroRaster).map
        (fun r => r 2 2 % 256) = some 9 ∧
    imgGrad 2 2 = 10 := by
  refine ⟨?_, ?_, ?_, ?_, ?_⟩ <;> with_unfolding_all decide


/-- C6 (amended): at `t = 1` the blended layout is exactly the target layout,
and `interpolate_image` agrees with the direct compositor `update_morph` on
every pixel covered by some destination triangle mask; the two differ on
uncovered pixels because of the different seed buffers. -/
theorem C6_t1_matches_direct_composite :
    ∀ (pts : List MorphPoint) (img : Raster) (w h x y : ℕ) (L : List (ℕ × ℕ × ℕ)),
      (update_morph pts img w h).isSome = true →
      delaunayModel (source_points pts w h) = some L →
      (∃ s ∈ L, maskVal (triOf (target_points pts w h) s) x y = 1) →
      inter_points pts w h 1 = target_points pts w h ∧
      update_morph_pixel pts img w h x y =
        some (interpolate_image pts img w h 1 x y) := by
  intro pts img w h x y L hs hd hcov
  refine ⟨inter_points_one pts w h, ?_⟩
  obtain ⟨L2, m1, hd2, hrun1, hupd⟩ := update_morph_cases pts img w h hs
  rw [hd] at hd2
  have hL : L = L2 := (Option.some.injEq _ _).mp hd2
  subst hL
  obtain ⟨m2, hrun2⟩ := runTriangles_some_of_some img w h (source_points pts w h)
    (target_points pts w h) L img zeroRaster m1 hrun1
  have ht : interpolate_try pts img w h 1 = some m2 := by
    rw [interpolate_try]
    simp only [hd]
    rw [inter_points_one]
    exact hrun2
  rw [interpolate_image_of_try_some pts img w h 1 m2 ht]
  rw [update_morph_pixel, hupd]
  show some (m1 x y % 256) = some (m2 x y % 256)
  rw [runTriangles_covered_agree img w h (source_points pts w h) (target_points pts w h)
    L img zeroRaster m1 m2 x y hrun1 hrun2 hcov]

/-- C6 witness: the amended theorem at the concrete input, covered pixel
(0,0). -/
theorem C6_t1_matches_direct_composite_witness :
    inter_points pts3 4 4 1 = target_points pts3 4 4 ∧
    update_morph_pixel pts3 img7 4 4 0 0 =
      some (interpolate_image pts3 img7 4 4 1 0 0) :=
  C6_t1_matches_direct_composite pts3 img7 4 4 0 0 [(0, 1, 2)]
    (by with_unfolding_all decide) (by with_unfolding_all decide)
    (by with_unfolding_all decide)

/-- C6 counterexample: at the uncovered pixel (3,3) the direct compositor
(`update_morph`, seeded with the source copy) yields 7 while
`interpolate_image` at `t = 1` yields 0 — refuting "interpolating at t = 1
produces the same output raster as the compositor invoked directly with the
target layout". -/
theorem C6_t1_matches_direct_composite_cex :
    update_morph_pixel pts3 img7 4 4 3 3 = some 7 ∧
    interpolate_image pts3 img7 4 4 1 3 3 = 0 := by
  constructor <;> with_unfolding_all decide

/-- The pixel-space target layout has as many entries as the point list. -/
theorem target_points_length (pts : List MorphPoint) (w h : ℕ) :
    (target_points pts w h).length = pts.length := by
  simp [target_points]

/-- Entrywise description of the pixel-space source layout. -/
theorem source_points_getD (pts : List MorphPoint) (w h n : ℕ) (hn : n < pts.length) :
    (source_points pts w h).getD n (0, 0) =
      ((pts.getD n mpDefault).source.1 * (w : ℚ),
        (pts.getD n mpDefault).source.2 * (h : ℚ)) := by
  rw [source_points, List.getD_eq_getElem?_getD, List.getElem?_map,
    List.getElem?_eq_getElem hn, List.getD_eq_getElem?_getD,
    List.getElem?_eq_getElem hn]
  rfl

/-- Entrywise description of the pixel-space target layout. -/
theorem target_points_getD (pts : List MorphPoint) (w h n : ℕ) (hn : n < pts.length) :
    (target_points pts w h).getD n (0, 0) =
      ((pts.getD n mpDefault).target.1 * (w : ℚ),
        (pts.getD n mpDefault).target.2 * (h : ℚ)) := by
  rw [target_points, List.getD_eq_getElem?_getD, List.getElem?_map,
    List.getElem?_eq_getElem hn, List.getD_eq_getElem?_getD,
    List.getElem?_eq_getElem hn]
  rfl

/-- C7: for every correspondence `n` and blend factor `t`, the interpolator
computes `blendedPoint[n] = (1 - t) * source[n] + t * target[n]` in pixel
space (normalized coordinates scaled by the raster's width and height), and
passes exactly this blended layout to the compositor as its destination
layout. -/
theorem C7_blended_layout :
    ∀ (pts : List MorphPoint) (img : Raster) (w h : ℕ) (t : ℚ) (n : ℕ),
      n < pts.length →
      (inter_points pts w h t).getD n (0, 0) =
        ((1 - t) * ((source_points pts w h).getD n (0, 0)).1 +
            t * ((target_points pts w h).getD n (0, 0)).1,
          (1 - t) * ((source_points pts w h).getD n (0, 0)).2 +
            t * ((target_points pts w h).getD n (0, 0)).2) ∧
      (source_points pts w h).getD n (0, 0) =
        ((pts.getD n mpDefault).source.1 * (w : ℚ),
          (pts.getD n mpDefault).source.2 * (h : ℚ)) ∧
      (target_points pts w h).getD n (0, 0) =
        ((pts.getD n mpDefault).target.1 * (w : ℚ),
          (pts.getD n mpDefault).target.2 * (h : ℚ)) ∧
      interpolate_image pts img w h t =
        interpolate_with_dest pts img w h (inter_points pts w h t) := by
  intro pts img w h t n hn
  have hsrc : n < (source_points pts w h).length := by
    rw [source_points_length]
    exact hn
  have htgt : n < (target_points pts w h).length := by
    rw [target_points_length]
    exact hn
  refine ⟨?_, source_points_getD pts w h n hn, target_points_getD pts w h n hn, rfl⟩
  rw [inter_points, List.getD_eq_getElem?_getD, List.getElem?_zipWith,
    List.getElem?_eq_getElem hsrc, List.getElem?_eq_getElem htgt,
    List.getD_eq_getElem?_getD, List.getElem?_eq_getElem hsrc,
    List.getD_eq_getElem?_getD, List.getElem?_eq_getElem htgt]
  rfl

/-- C7 witness: the theorem at a concrete input and index. -/
theorem C7_blended_layout_witness :
    (inter_points pts3 4 4 (1/2)).getD 1 (0, 0) =
      ((1 - (1/2 : ℚ)) * ((source_points pts3 4 4).getD 1 (0, 0)).1 +
          (1/2 : ℚ) * ((target_points pts3 4 4).getD 1 (0, 0)).1,
        (1 - (1/2 : ℚ)) * ((source_points pts3 4 4).getD 1 (0, 0)).2 +
          (1/2 : ℚ) * ((target_points pts3 4 4).getD 1 (0, 0)).2) ∧
    (source_points pts3 4 4).getD 1 (0, 0) =
      ((pts3.getD 1 mpDefault).source.1 * (4 : ℚ),
        (pts3.getD 1 mpDefault).source.2 * (4 : ℚ)) ∧
    (target_points pts3 4 4).getD 1 (0, 0) =
      ((pts3.getD 1 mpDefault).target.1 * (4 : ℚ),
        (pts3.getD 1 mpDefault).target.2 * (4 : ℚ)) ∧
    interpolate_image pts3 img7 4 4 (1/2) =
      interpolate_with_dest pts3 img7 4 4 (inter_points pts3 4 4 (1/2)) :=
  C7_blended_layout pts3 img7 4 4 (1/2) 1 (by with_unfolding_all decide)

end Morpher
